import Mathlib

/-!
Verification of the audio-learning-app preprocessing pipeline
(`preprocessing_pipeline/scripts/process_elevenlabs_complete.py` and
`preprocessing_pipeline/edge_case_handlers.py`) against its natural-language
specification.  The Python code is shallowly embedded: dictionaries become
structures, mutating loops become structural recursions, Python `int`
arithmetic becomes `Int` (Python `//` on the nonnegative operands that occur
agrees with `Int`'s division), and fallible array indexing becomes `Option`.
-/

namespace AudioApp

/-- Word timing record, as built by `extract_words_with_timing`
(`process_elevenlabs_complete.py`).  Times are integer milliseconds,
`char_start`/`char_end` are offsets into the reconstructed text. -/
structure Word where
  word : String
  start_ms : Int
  end_ms : Int
  char_start : Nat
  char_end : Nat
  sentence_index : Int
deriving DecidableEq

/-- Sentence record, as built by `apply_enhanced_sentence_detection`
(`edge_case_handlers.py`). -/
structure Sentence where
  text : String
  start_ms : Int
  end_ms : Int
  sentence_index : Nat
  wordStartIndex : Int
  wordEndIndex : Int
  char_start : Nat
  char_end : Nat
  break_reason : String
deriving DecidableEq

/-- Default word, used only as the default value of `List.getD` in
theorem statements. -/
def wdef : Word := ⟨"", 0, 0, 0, 0, 0⟩

/-- Default sentence, used only as the default value of `List.getD` in
theorem statements. -/
def sdef : Sentence := ⟨"", 0, 0, 0, 0, 0, 0, 0, ""⟩

/-! ## GapNormalizer: `eliminate_timing_gaps`

The Python loop walks adjacent pairs `(words[i], words[i+1])` and rewrites
only `words[i]['end_ms']`; `start_ms` values are never read after being
written, so each pair is independent and the loop is a one-pass map. -/

/-- Update of one word's `end_ms` given the next word's `start_ms`, exactly
the body of the pair loop in `eliminate_timing_gaps`: positive gaps below
500 ms are closed, larger gaps are split at the midpoint (`gap // 2`),
overlaps are clamped. -/
def adjustWordEnd (w : Word) (nextStart : Int) : Word :=
  if 0 < nextStart - w.end_ms then
    if nextStart - w.end_ms < 500 then { w with end_ms := nextStart }
    else { w with end_ms := w.end_ms + (nextStart - w.end_ms) / 2 }
  else if nextStart - w.end_ms < 0 then { w with end_ms := nextStart }
  else w

/-- `ElevenLabsCompleteProcessor.eliminate_timing_gaps`. -/
def eliminate_timing_gaps : List Word → List Word
  | [] => []
  | [w] => [w]
  | w :: w2 :: rest => adjustWordEnd w w2.start_ms :: eliminate_timing_gaps (w2 :: rest)

theorem adjustWordEnd_start (w : Word) (s : Int) :
    (adjustWordEnd w s).start_ms = w.start_ms := by
  unfold adjustWordEnd
  split_ifs <;> rfl

theorem adjustWordEnd_end_le (w : Word) (s : Int) :
    (adjustWordEnd w s).end_ms ≤ s := by
  unfold adjustWordEnd
  split_ifs <;> ((try simp only []); omega)

theorem adjustWordEnd_of_overlap (w : Word) (s : Int) (h : s < w.end_ms) :
    (adjustWordEnd w s).end_ms = s := by
  unfold adjustWordEnd
  split_ifs <;> first | rfl | omega

theorem adjustWordEnd_of_small_gap (w : Word) (s : Int) (h : s - w.end_ms < 500) :
    (adjustWordEnd w s).end_ms = s := by
  unfold adjustWordEnd
  split_ifs <;> first | rfl | omega

theorem adjustWordEnd_idem (w : Word) (s : Int) (h : s - w.end_ms < 500) :
    adjustWordEnd (adjustWordEnd w s) s = adjustWordEnd w s := by
  have he : (adjustWordEnd w s).end_ms = s := adjustWordEnd_of_small_gap w s h
  conv_lhs => rw [adjustWordEnd, he]
  simp

theorem eliminate_timing_gaps_length (ws : List Word) :
    (eliminate_timing_gaps ws).length = ws.length := by
  induction ws with
  | nil => rfl
  | cons w rest ih =>
    cases rest with
    | nil => rfl
    | cons w2 r2 =>
      simp only [eliminate_timing_gaps, List.length_cons] at *
      omega

theorem eliminate_timing_gaps_head_start (ws : List Word) :
    (eliminate_timing_gaps ws).head?.map Word.start_ms = ws.head?.map Word.start_ms := by
  cases ws with
  | nil => rfl
  | cons w rest =>
    cases rest with
    | nil => rfl
    | cons w2 r2 =>
      simp [eliminate_timing_gaps, adjustWordEnd_start]

theorem eliminate_timing_gaps_getD_of_lt (ws : List Word) (i : Nat)
    (h : i + 1 < ws.length) :
    (eliminate_timing_gaps ws).getD i wdef =
      adjustWordEnd (ws.getD i wdef) ((ws.getD (i + 1) wdef).start_ms) := by
  induction ws generalizing i with
  | nil => simp at h
  | cons w rest ih =>
    cases rest with
    | nil => simp at h
    | cons w2 r2 =>
      cases i with
      | zero => rfl
      | succ j =>
        simp only [List.length_cons] at h
        have := ih j (by simp only [List.length_cons]; omega)
        simpa [eliminate_timing_gaps] using this

theorem eliminate_timing_gaps_getD_last (ws : List Word) (i : Nat)
    (h : ¬ (i + 1 < ws.length)) :
    (eliminate_timing_gaps ws).getD i wdef = ws.getD i wdef := by
  induction ws generalizing i with
  | nil => rfl
  | cons w rest ih =>
    cases rest with
    | nil => cases i <;> rfl
    | cons w2 r2 =>
      cases i with
      | zero => simp [List.length_cons] at h
      | succ j =>
        simp only [List.length_cons] at h
        have := ih j (by simpa using h)
        simpa [eliminate_timing_gaps] using this

/-! ## Adjacent-pair predicates -/

/-- `adjacentSat P l` holds when every pair of neighbouring elements of `l`
satisfies `P`. -/
def adjacentSat {α : Type} (P : α → α → Prop) : List α → Prop
  | a :: b :: rest => P a b ∧ adjacentSat P (b :: rest)
  | _ => True

theorem adjacentSat_nil {α : Type} (P : α → α → Prop) : adjacentSat P [] := trivial

theorem adjacentSat_single {α : Type} (P : α → α → Prop) (a : α) :
    adjacentSat P [a] := trivial

theorem adjacentSat_getD {α : Type} (P : α → α → Prop) (d : α) :
    ∀ (l : List α), adjacentSat P l →
      ∀ i, i + 1 < l.length → P (l.getD i d) (l.getD (i + 1) d)
  | a :: b :: rest, h, 0, _ => h.1
  | a :: b :: rest, h, i + 1, hi => by
    have := adjacentSat_getD P d (b :: rest) h.2 i (by
      simp only [List.length_cons] at hi ⊢; omega)
    simpa using this

theorem adjacentSat_map {α β : Type} (P : α → α → Prop) (Q : β → β → Prop)
    (f : α → β) (hf : ∀ a b, P a b → Q (f a) (f b)) :
    ∀ (l : List α), adjacentSat P l → adjacentSat Q (l.map f)
  | [], _ => trivial
  | [a], _ => trivial
  | a :: b :: rest, h => by
    refine ⟨hf a b h.1, ?_⟩
    exact adjacentSat_map P Q f hf (b :: rest) h.2

/-- After one pass of `eliminate_timing_gaps`, every adjacent pair satisfies
`end_ms ≤ start_ms` of the next word: gaps are closed or split, overlaps
clamped, and no new overlap is introduced. -/
theorem eliminate_timing_gaps_no_overlap (ws : List Word) :
    adjacentSat (fun a b => a.end_ms ≤ b.start_ms) (eliminate_timing_gaps ws) := by
  induction ws with
  | nil => trivial
  | cons w rest ih =>
    cases rest with
    | nil => trivial
    | cons w2 r2 =>
      have hrec := ih
      have hhead : ∀ l : List Word, l.head?.map Word.start_ms = some w2.start_ms →
          adjacentSat (fun a b => a.end_ms ≤ b.start_ms) l →
          adjacentSat (fun a b => a.end_ms ≤ b.start_ms)
            (adjustWordEnd w w2.start_ms :: l) := by
        intro l hl hsat
        cases l with
        | nil => trivial
        | cons x xs =>
          refine ⟨?_, hsat⟩
          have hx : x.start_ms = w2.start_ms := by
            simpa using hl
          show (adjustWordEnd w w2.start_ms).end_ms ≤ x.start_ms
          rw [hx]
          exact adjustWordEnd_end_le w w2.start_ms
      have hh : (eliminate_timing_gaps (w2 :: r2)).head?.map Word.start_ms
          = some w2.start_ms := by
        rw [eliminate_timing_gaps_head_start]
        rfl
      exact hhead _ hh hrec

/-! ## Claim C9 and Claim C3 -/

/-- Claim C9: for every word list ordered by position, a single pass of
`eliminate_timing_gaps` leaves no overlap: afterwards every adjacent pair
satisfies `end_ms ≤ next.start_ms`, and any input pair with
`next.start_ms < current.end_ms` has been clamped so the two meet exactly. -/
theorem c9_single_pass_no_overlap (ws : List Word)
    (_hsorted : adjacentSat (fun a b => a.start_ms ≤ b.start_ms) ws)
    (i : Nat) (h : i + 1 < ws.length) :
    ((eliminate_timing_gaps ws).getD i wdef).end_ms ≤
        ((eliminate_timing_gaps ws).getD (i + 1) wdef).start_ms
    ∧ ((ws.getD (i + 1) wdef).start_ms < (ws.getD i wdef).end_ms →
        ((eliminate_timing_gaps ws).getD i wdef).end_ms =
          ((eliminate_timing_gaps ws).getD (i + 1) wdef).start_ms) := by
  have hstart : ((eliminate_timing_gaps ws).getD (i + 1) wdef).start_ms
      = (ws.getD (i + 1) wdef).start_ms := by
    by_cases hc : i + 1 + 1 < ws.length
    · rw [eliminate_timing_gaps_getD_of_lt ws (i + 1) hc, adjustWordEnd_start]
    · rw [eliminate_timing_gaps_getD_last ws (i + 1) hc]
  constructor
  · exact adjacentSat_getD _ wdef _ (eliminate_timing_gaps_no_overlap ws) i
      (by rw [eliminate_timing_gaps_length]; exact h)
  · intro hov
    rw [eliminate_timing_gaps_getD_of_lt ws i h, hstart]
    exact adjustWordEnd_of_overlap _ _ hov

/-- Concrete input for the C9 witness: two words ordered by start time whose
spans overlap by 50 ms. -/
def c9ws : List Word := [⟨"a", 0, 100, 0, 1, 0⟩, ⟨"b", 50, 150, 2, 3, 0⟩]

/-- Witness for C9 at a concrete overlapping pair: the overlap is clamped to
an exact meeting point. -/
theorem c9_witness :
    ((eliminate_timing_gaps c9ws).getD 0 wdef).end_ms =
      ((eliminate_timing_gaps c9ws).getD 1 wdef).start_ms :=
  (c9_single_pass_no_overlap c9ws ⟨by decide, trivial⟩ 0 (by decide)).2 (by decide)

/-- Concrete input refuting C3: a pair of words separated by a 1000 ms gap.
The first pass moves the first word's end to the midpoint 600; the residual
500 ms gap is split again by a second pass, reaching 850. -/
def c3ws : List Word := [⟨"a", 0, 100, 0, 1, 0⟩, ⟨"b", 1100, 1200, 2, 3, 0⟩]

/-- Counterexample to claim C3: `eliminate_timing_gaps` is not idempotent;
on a 1000 ms gap the output of one pass is not a fixed point. -/
theorem c3_counterexample :
    eliminate_timing_gaps (eliminate_timing_gaps c3ws) ≠ eliminate_timing_gaps c3ws := by
  decide

/-- Claim C3 as amended: if every adjacent gap of the input is below the
500 ms threshold, one pass of `eliminate_timing_gaps` is a fixed point of a
second pass. -/
theorem c3_idempotent_of_small_gaps (ws : List Word)
    (h : adjacentSat (fun a b => b.start_ms - a.end_ms < 500) ws) :
    eliminate_timing_gaps (eliminate_timing_gaps ws) = eliminate_timing_gaps ws := by
  induction ws with
  | nil => rfl
  | cons w rest ih =>
    cases rest with
    | nil => rfl
    | cons w2 r2 =>
      have h1 : w2.start_ms - w.end_ms < 500 := h.1
      have hlen : (eliminate_timing_gaps (w2 :: r2)).length = r2.length + 1 := by
        rw [eliminate_timing_gaps_length]; rfl
      obtain ⟨y, ys, hL⟩ : ∃ y ys, eliminate_timing_gaps (w2 :: r2) = y :: ys := by
        cases hE : eliminate_timing_gaps (w2 :: r2) with
        | nil => rw [hE] at hlen; simp at hlen
        | cons y ys => exact ⟨y, ys, rfl⟩
      have hy : y.start_ms = w2.start_ms := by
        have hh := eliminate_timing_gaps_head_start (w2 :: r2)
        rw [hL] at hh
        simpa using hh
      have hstep : eliminate_timing_gaps (w :: w2 :: r2)
          = adjustWordEnd w w2.start_ms :: eliminate_timing_gaps (w2 :: r2) := rfl
      rw [hstep, hL]
      show adjustWordEnd (adjustWordEnd w w2.start_ms) y.start_ms ::
        eliminate_timing_gaps (y :: ys) = _
      rw [hy, adjustWordEnd_idem w w2.start_ms h1, ← hL, ih h.2]

/-- Witness for the amended C3 at a concrete input whose single gap is
200 ms (below the threshold). -/
def c3smallws : List Word := [⟨"a", 0, 100, 0, 1, 0⟩, ⟨"b", 300, 400, 2, 3, 0⟩]

/-- Witness for the amended C3. -/
theorem c3_witness :
    eliminate_timing_gaps (eliminate_timing_gaps c3smallws) =
      eliminate_timing_gaps c3smallws :=
  c3_idempotent_of_small_gaps c3smallws ⟨by decide, trivial⟩

/-! ## LookupTableBuilder: `generate_lookup_table` -/

/-- Lookup table structure (`generate_lookup_table` return value); entries
are `[word_index, sentence_index]` pairs with `-1` as the sentinel. -/
structure LookupTable where
  version : String
  interval : Nat
  totalDurationMs : Nat
  lookup : List (Int × Int)
deriving DecidableEq

/-- The inner `while` loop of `generate_lookup_table`: advance the cursor
while the next word starts at or before the sample time.  `fuel` bounds the
number of steps (the loop advances at most `words.length` times). -/
def advanceIdx (words : List Word) (t : Int) : Nat → Nat → Nat
  | 0, idx => idx
  | fuel + 1, idx =>
    if idx < words.length - 1 then
      if ((words.getD (idx + 1) wdef).start_ms) ≤ t then
        advanceIdx words t fuel (idx + 1)
      else idx
    else idx

/-- One iteration body of `generate_lookup_table`: the active word at sample
time `t` (current word, else the immediately preceding word, else `-1`) and
its sentence index. -/
def lookupEntryAt (words : List Word) (t : Int) (idx : Nat) : Int × Int :=
  let cur : Int :=
    match words.get? idx with
    | none => -1
    | some w =>
      if w.start_ms ≤ t && t ≤ w.end_ms then (idx : Int)
      else
        match (if 0 < idx then words.get? (idx - 1) else none) with
        | some pw =>
          if pw.start_ms ≤ t && t ≤ pw.end_ms then (idx : Int) - 1 else -1
        | none => -1
  let sidx : Int := if 0 ≤ cur then (words.getD cur.toNat wdef).sentence_index else -1
  (cur, sidx)

/-- The sampling loop of `generate_lookup_table`, over
`range(0, total_duration_ms + 1, interval_ms)`, carrying the word cursor. -/
def lookupGo (words : List Word) (interval : Nat) : Nat → Nat → Nat → List (Int × Int)
  | 0, _, _ => []
  | steps + 1, t, idx =>
    let idx2 := advanceIdx words (t : Int) words.length idx
    lookupEntryAt words (t : Int) idx2 :: lookupGo words interval steps (t + interval) idx2

/-- `ElevenLabsCompleteProcessor.generate_lookup_table`.  The `sentences`
argument is accepted but never read, exactly as in the source. -/
def generate_lookup_table (words : List Word) (sentences : List Sentence)
    (total_duration_ms : Nat) (interval_ms : Nat) : LookupTable :=
  { version := "1.0"
    interval := interval_ms
    totalDurationMs := total_duration_ms
    lookup := lookupGo words interval_ms (total_duration_ms / interval_ms + 1) 0 0 }

/-- Concrete 2-word input of claim C5: word 0 spans 0 to 500 ms in sentence 0,
word 1 spans 500 to 1000 ms in sentence 1. -/
def c5words : List Word :=
  [⟨"alpha", 0, 500, 0, 5, 0⟩, ⟨"beta", 500, 1000, 6, 10, 1⟩]

/-- Concrete sentences matching `c5words` (ignored by the builder). -/
def c5sentences : List Sentence :=
  [⟨"alpha", 0, 500, 0, 0, 0, 0, 5, "period"⟩,
   ⟨"beta", 500, 1000, 1, 1, 1, 6, 10, "end_of_text"⟩]

set_option maxRecDepth 40000 in
/-- Claim C5: the lookup table built with `interval_ms = 10` reports
`word_index = 0` (sentence 0) at sample time 250 ms — entry 25 — and
`word_index = 1` (sentence 1) at sample time 750 ms — entry 75. -/
theorem c5_lookup_correctness :
    (generate_lookup_table c5words c5sentences 1000 10).lookup.get? 25 = some (0, 0)
    ∧ (generate_lookup_table c5words c5sentences 1000 10).lookup.get? 75 = some (1, 1) := by
  decide

/-! ## Python string helpers

Text is manipulated as `List Char`; `String` is kept in the records.  These
helpers mirror the Python `str` methods used by the pipeline (ASCII inputs:
Python's Unicode-aware classifiers agree with the ASCII ones on every
character the repository feeds them). -/

/-- Whitespace in the sense of Python `str.strip` / `str.split` / `\s`. -/
def isPySpace (c : Char) : Bool :=
  c = ' ' || c = '\t' || c = '\n' || c = '\x0b' || c = '\x0c' || c = '\r'

/-- Python `str.strip()`. -/
def pyStrip (s : List Char) : List Char :=
  ((s.dropWhile isPySpace).reverse.dropWhile isPySpace).reverse

/-- Helper for `pySplit`, accumulating the current run of non-whitespace. -/
def pySplitAux : List Char → List Char → List (List Char)
  | [], acc => if acc.isEmpty then [] else [acc.reverse]
  | c :: rest, acc =>
    if isPySpace c then
      if acc.isEmpty then pySplitAux rest []
      else acc.reverse :: pySplitAux rest []
    else pySplitAux rest (c :: acc)

/-- Python `str.split()` with no separator: split on whitespace runs. -/
def pySplit (s : List Char) : List (List Char) := pySplitAux s []

/-- Helper for `splitLines`, accumulating the current line. -/
def splitLinesAux : List Char → List Char → List (List Char)
  | [], acc => [acc.reverse]
  | '\n' :: rest, acc => acc.reverse :: splitLinesAux rest []
  | c :: rest, acc => splitLinesAux rest (c :: acc)

/-- Python `str.split('\n')` (keeps empty pieces). -/
def splitLines (s : List Char) : List (List Char) := splitLinesAux s []

/-- Last character of a string, used for Python `str.endswith(<one char>)`. -/
def strEndsWithChar (s : String) (c : Char) : Bool :=
  match s.toList.getLast? with
  | some d => d = c
  | none => false

/-- `endswith` for a character list. -/
def listEndsWithChar (s : List Char) (c : Char) : Bool :=
  match s.getLast? with
  | some d => d = c
  | none => false

/-! ## EdgeCaseHandlers: abbreviation table (`load_abbreviations`) -/

/-- The flattened abbreviation set `all_abbreviations` built by
`EdgeCaseHandlers.load_abbreviations`: titles, months, common Latin/business
abbreviations, time markers, locations, units, countries, organizations. -/
def all_abbreviations : List String :=
  ["Dr", "Mr", "Mrs", "Ms", "Prof", "Sr", "Jr", "Rev", "Gen", "Col", "Maj",
   "Capt", "Lt", "Sgt",
   "Jan", "Feb", "Mar", "Apr", "Jun", "Jul", "Aug", "Sep", "Sept", "Oct",
   "Nov", "Dec",
   "etc", "vs", "eg", "ie", "cf", "al", "Inc", "Corp", "Ltd", "Co", "LLC",
   "Ph.D", "M.D", "B.A", "M.A", "B.S", "M.S",
   "a.m", "p.m", "A.M", "P.M",
   "St", "Ave", "Rd", "Blvd", "Ct", "Ln", "Pkwy",
   "ft", "in", "yd", "mi", "km", "cm", "mm", "m", "kg", "g", "lb", "oz",
   "U.S", "U.K", "U.S.A",
   "NATO", "UN", "EU", "WHO", "FBI", "CIA", "NASA", "IRS"]

/-- Tail of the pattern `^[A-Z](\.[A-Z])+$`: one or more `.X` pairs with `X`
an ASCII capital, consuming the whole remainder. -/
def initialPairs : List Char → Bool
  | ['.', c] => c.isUpper
  | '.' :: c :: rest => c.isUpper && initialPairs rest
  | _ => false

/-- `re.match(r'^[A-Z](\.[A-Z])+$', word)` as a Boolean matcher (the pattern
is anchored at both ends and each alternative consumes exactly two
characters, so no backtracking arises). -/
def multiInitialMatch (word : String) : Bool :=
  match word.toList with
  | c :: rest => c.isUpper && initialPairs rest
  | [] => false

/-- `EdgeCaseHandlers.is_abbreviation`.  `next_word = none` models calling
the Python function without a following word. -/
def is_abbreviation (word : String) (next_word : Option String) : Bool :=
  if !strEndsWithChar word '.' then false
  else
    let word_without_period : String := String.mk word.toList.dropLast
    if all_abbreviations.contains word_without_period then true
    else if multiInitialMatch word then true
    else if (match next_word with
             | some nw =>
               match nw.toList with
               | c :: _ => c.isLower
               | [] => false
             | none => false) then true
    else if word_without_period.toList.length = 1
            && (match word_without_period.toList with
                | c :: _ => c.isUpper
                | [] => false) then true
    else false

/-- Claim C6: the abbreviation classifier accepts "Dr.", "Inc.", "U.S.A."
and "Ph.D." and rejects "random." and "end." (no following word supplied). -/
theorem c6_abbreviation_table :
    is_abbreviation "Dr." none = true
    ∧ is_abbreviation "Inc." none = true
    ∧ is_abbreviation "U.S.A." none = true
    ∧ is_abbreviation "Ph.D." none = true
    ∧ is_abbreviation "random." none = false
    ∧ is_abbreviation "end." none = false := by
  decide

/-! ## StructureDetector: types and list detection -/

/-- `StructureType` enumeration from `edge_case_handlers.py`. -/
inductive StructureType where
  | COLON_LIST
  | NUMBERED_LIST
  | BULLETED_LIST
  | LETTERED_LIST
  | QUOTATION
  | DIALOG
  | EQUATION
  | CODE_BLOCK
  | HEADER
  | URL
  | EMAIL
  | ABBREVIATION
deriving DecidableEq

/-- The `.value` string of a `StructureType` member. -/
def StructureType.value : StructureType → String
  | .COLON_LIST => "colon_list"
  | .NUMBERED_LIST => "numbered_list"
  | .BULLETED_LIST => "bulleted_list"
  | .LETTERED_LIST => "lettered_list"
  | .QUOTATION => "quotation"
  | .DIALOG => "dialog"
  | .EQUATION => "equation"
  | .CODE_BLOCK => "code_block"
  | .HEADER => "header"
  | .URL => "url"
  | .EMAIL => "email"
  | .ABBREVIATION => "abbreviation"

/-- `TextStructure` dataclass (the `metadata` dictionary, used only to carry
a dialog speaker name, is not modelled; no claim reads it). -/
structure TextStructure where
  type : StructureType
  start_pos : Nat
  end_pos : Nat
  content : List Char
deriving DecidableEq

/-- `re.compile(r'^(\d+)[.)] ').match(line)`: one or more digits, then `.`
or `)`, then a space (giving back a digit can never produce `.` or `)`, so
the greedy scan is exact). -/
def numberedListMatch (line : List Char) : Bool :=
  match line with
  | c :: rest =>
    c.isDigit &&
      (match rest.dropWhile Char.isDigit with
       | p :: q :: _ => (p = '.' || p = ')') && q = ' '
       | _ => false)
  | [] => false

/-- `re.compile(r'^([a-z])[.)] ', re.IGNORECASE).match(line)`: a single
ASCII letter, then `.` or `)`, then a space. -/
def letteredListMatch (line : List Char) : Bool :=
  match line with
  | c :: p :: q :: _ => (c.isUpper || c.isLower) && (p = '.' || p = ')') && q = ' '
  | _ => false

/-- `re.compile(r'^[•·▪▫◦‣⁃\-*+] ').match(line)`: a bullet glyph then a
space. -/
def bulletedListMatch (line : List Char) : Bool :=
  match line with
  | c :: q :: _ =>
    (c = '•' || c = '·' || c = '▪' || c = '▫' || c = '◦' || c = '‣' ||
     c = '⁃' || c = '-' || c = '*' || c = '+') && q = ' '
  | _ => false

/-- `sum(len(l) + 1 for l in lines[:i])` — the character offset of line `i`. -/
def lineStartPos (lines : List (List Char)) (i : Nat) : Nat :=
  ((lines.take i).map (fun l => l.length + 1)).sum

/-- The per-line body of `EdgeCaseHandlers.detect_lists`. -/
def detectListsLine (lines : List (List Char)) (i : Nat) : List TextStructure :=
  let line := lines.getD i []
  let start_pos := lineStartPos lines i
  (if 0 < i && listEndsWithChar (lines.getD (i - 1) []) ':'
      && (match line with
          | c :: _ => c.isUpper
          | [] => false)
      && !listEndsWithChar line '.' then
    [⟨StructureType.COLON_LIST, start_pos, start_pos + line.length, line⟩]
  else []) ++
  (if numberedListMatch line then
    [⟨StructureType.NUMBERED_LIST, start_pos, start_pos + line.length, line⟩]
  else []) ++
  (if bulletedListMatch line then
    [⟨StructureType.BULLETED_LIST, start_pos, start_pos + line.length, line⟩]
  else []) ++
  (if letteredListMatch line then
    [⟨StructureType.LETTERED_LIST, start_pos, start_pos + line.length, line⟩]
  else [])

/-- `EdgeCaseHandlers.detect_lists`. -/
def detect_lists (text : List Char) : List TextStructure :=
  let lines := splitLines text
  (List.range lines.length).flatMap (detectListsLine lines)

/-! ## StructureDetector: quotations and dialog (`detect_quotations`)

The file is plain ASCII: the quote-matching regular expression
`["\'""'']` reduces to the two characters `"` and `'`, and the
"opening quote" membership string `'["\'""'` also contains both of them. -/

/-- A character matched by the quote-scanning regular expression. -/
def isQuoteChar (c : Char) : Bool := c = '"' || c = '\''

/-- Membership test `quote_char in '["\'""'` — the string holds the three
distinct characters `[`, `"` and `'`. -/
def inOpeningQuoteSet (c : Char) : Bool := c = '[' || c = '"' || c = '\''

/-- The quote-pairing scan of `detect_quotations`: walk the text with a
stack; a quote character is pushed when the stack is empty or it is in the
opening set, otherwise it pops and records a Quotation spanning from the
popped position to just past the closer. -/
def quoteScan (text : List Char) : List Char → Nat → List (Char × Nat) → List TextStructure
  | [], _, _ => []
  | c :: rest, pos, stack =>
    if isQuoteChar c then
      if stack.isEmpty || inOpeningQuoteSet c then
        quoteScan text rest (pos + 1) ((c, pos) :: stack)
      else
        match stack with
        | (_, start_pos) :: stack2 =>
          ⟨StructureType.QUOTATION, start_pos, pos + 1,
            (text.take (pos + 1)).drop start_pos⟩ :: quoteScan text rest (pos + 1) stack2
        | [] => quoteScan text rest (pos + 1) stack
    else quoteScan text rest (pos + 1) stack

/-- `re.compile(r'^([A-Z][a-z]+):\s*["\']')` matched at the start of the
text (`finditer` with an uncompiled-start anchor and no MULTILINE flag can
only match at position 0).  Returns the match end. -/
def dialogMarkerMatch (text : List Char) : Option Nat :=
  match text with
  | c :: rest =>
    if c.isUpper then
      let lowers := rest.takeWhile Char.isLower
      if lowers.length ≥ 1 then
        match rest.drop lowers.length with
        | ':' :: r2 =>
          let sp := (r2.takeWhile isPySpace).length
          match r2.drop sp with
          | q :: _ =>
            if q = '"' || q = '\'' then some (1 + lowers.length + 1 + sp + 1)
            else none
          | [] => none
        | _ => none
      else none
    else none
  | [] => none

/-- `EdgeCaseHandlers.detect_quotations`: the quote-pairing scan followed by
dialog-marker detection. -/
def detect_quotations (text : List Char) : List TextStructure :=
  quoteScan text text 0 [] ++
    (match dialogMarkerMatch text with
     | some e => [⟨StructureType.DIALOG, 0, e, text.take e⟩]
     | none => [])

theorem quoteScan_eq_nil (text : List Char) :
    ∀ (rem : List Char) (pos : Nat) (stack : List (Char × Nat)),
      quoteScan text rem pos stack = [] := by
  intro rem
  induction rem with
  | nil => intro pos stack; rfl
  | cons c rest ih =>
    intro pos stack
    show quoteScan text (c :: rest) pos stack = []
    by_cases hq : isQuoteChar c
    · have ho : inOpeningQuoteSet c := by
        have hcc : c = '"' ∨ c = '\'' := by
          unfold isQuoteChar at hq
          simpa using hq
        unfold inOpeningQuoteSet
        rcases hcc with h | h <;> simp [h]
      unfold quoteScan
      simp only [hq, ho, Bool.or_true, if_true]
      exact ih (pos + 1) ((c, pos) :: stack)
    · unfold quoteScan
      simp only [hq, if_false, Bool.false_eq_true]
      exact ih (pos + 1) stack

/-- Text containing exactly two straight double-quote characters, at
positions 4 and 7. -/
def c8text : List Char := "say \"hi\" ok".toList

/-- Counterexample to claim C8: on a text with exactly two straight double
quotes, no Quotation structure at all is recorded (both quote characters are
members of the "opening" set, so the closing branch of the scan is never
taken). -/
theorem c8_counterexample :
    detect_quotations c8text = []
    ∧ ¬ (∃ s ∈ detect_quotations c8text, s.type = StructureType.QUOTATION
          ∧ s.start_pos = 4 ∧ s.end_pos = 8) := by
  decide

/-- Claim C8 as amended: every quote character is classified as opening (the
membership string of the opening test contains both matched quote
characters), so the quote stack only ever grows, no Quotation is ever
recorded, and `detect_quotations` can only return Dialog structures. -/
theorem c8_quotes_never_close (text : List Char) :
    ∀ s ∈ detect_quotations text, s.type = StructureType.DIALOG := by
  intro s hs
  unfold detect_quotations at hs
  rw [quoteScan_eq_nil text text 0 []] at hs
  simp only [List.nil_append] at hs
  cases hd : dialogMarkerMatch text with
  | some e =>
    rw [hd] at hs
    simp only [List.mem_singleton] at hs
    rw [hs]
  | none =>
    rw [hd] at hs
    simp at hs

/-- Witness for the amended C8: a concrete dialog-marker text whose single
detected structure is Dialog. -/
theorem c8_witness :
    (⟨StructureType.DIALOG, 0, 6, "Bob: \"".toList⟩ : TextStructure).type
      = StructureType.DIALOG :=
  c8_quotes_never_close ("Bob: \"hi".toList) _ (by decide)

/-! ## StructureDetector: regular-expression sub-detectors

Each Python regex is embedded as an explicit matcher returning the match end
for a match anchored at a given position.  In every pattern each greedy
sub-expression is followed by a character class disjoint from it (or the
give-back semantics is enumerated explicitly, as in the e-mail domain), so
the matchers reproduce the backtracking engine exactly.  `finditerGo`
reproduces `re.finditer`: scan left to right, record non-overlapping
matches, resume at each match end. -/

/-- `re.finditer` driver over match positions; `fuel` bounds the scan (the
position strictly increases, so `text.length` steps suffice). -/
def finditerGo (matcher : Nat → Option Nat) (len : Nat) : Nat → Nat → List (Nat × Nat)
  | 0, _ => []
  | fuel + 1, pos =>
    if pos < len then
      match matcher pos with
      | some e => (pos, e) :: finditerGo matcher len fuel (max e (pos + 1))
      | none => finditerGo matcher len fuel (pos + 1)
    else []

/-- A regex word character `\w` (ASCII inputs). -/
def isWordChar (c : Char) : Bool := c.isUpper || c.isLower || c.isDigit || c = '_'

/-- A `\b` word boundary immediately before position `pos`. -/
def boundaryAt (text : List Char) (pos : Nat) : Bool :=
  (if pos = 0 then false else isWordChar (text.getD (pos - 1) ' '))
    != (match text.get? pos with
        | some c => isWordChar c
        | none => false)

/-- The operator class `[+\-*/=<>≤≥≠]` of the `equation` pattern. -/
def isOpChar (c : Char) : Bool :=
  c = '+' || c = '-' || c = '*' || c = '/' || c = '=' || c = '<' || c = '>' ||
  c = '≤' || c = '≥' || c = '≠'

/-- `re.compile(r'\b\d+\s*[+\-*/=<>≤≥≠]\s*\d+')` anchored at `pos`. -/
def equationMatchAt (text : List Char) (pos : Nat) : Option Nat :=
  if boundaryAt text pos then
    let l := text.drop pos
    let d1 := (l.takeWhile Char.isDigit).length
    if d1 = 0 then none
    else
      let r1 := l.drop d1
      let s1 := (r1.takeWhile isPySpace).length
      match r1.drop s1 with
      | op :: r2 =>
        if isOpChar op then
          let s2 := (r2.takeWhile isPySpace).length
          let d2 := ((r2.drop s2).takeWhile Char.isDigit).length
          if d2 = 0 then none else some (pos + d1 + s1 + 1 + s2 + d2)
        else none
      | [] => none
  else none

/-- `re.compile(r'[A-Z]\s*=\s*[^.!?]+')` anchored at `pos`.  The classes
`\s` and `[^.!?]` overlap, but their union is exactly the non-`.!?`
characters, so the combined greedy tail consumes the maximal run of
non-terminator characters and requires it to be non-empty. -/
def formulaMatchAt (text : List Char) (pos : Nat) : Option Nat :=
  match text.drop pos with
  | c :: r1 =>
    if c.isUpper then
      let s1 := (r1.takeWhile isPySpace).length
      match r1.drop s1 with
      | '=' :: r2 =>
        let body := (r2.takeWhile (fun d => !(d = '.' || d = '!' || d = '?'))).length
        if body ≥ 1 then some (pos + 1 + s1 + 1 + body) else none
      | _ => none
    else none
  | [] => none

/-- One alternative `<prefix>[^\s]+` of the URL pattern, anchored at `pos`. -/
def urlAlternative (text : List Char) (pos : Nat) (pre : List Char) : Option Nat :=
  let l := text.drop pos
  if l.take pre.length = pre then
    let body := ((l.drop pre.length).takeWhile (fun c => !isPySpace c)).length
    if body ≥ 1 then some (pos + pre.length + body) else none
  else none

/-- `re.compile(r'https?://[^\s]+|www\.[^\s]+')` anchored at `pos` (the
optional `s` is tried greedily first, then the second alternative). -/
def urlMatchAt (text : List Char) (pos : Nat) : Option Nat :=
  match urlAlternative text pos "https://".toList with
  | some e => some e
  | none =>
    match urlAlternative text pos "http://".toList with
    | some e => some e
    | none => urlAlternative text pos "www.".toList

/-- Local-part class `[A-Za-z0-9._%+-]` of the e-mail pattern. -/
def isLocalChar (c : Char) : Bool :=
  c.isUpper || c.isLower || c.isDigit || c = '.' || c = '_' || c = '%' ||
  c = '+' || c = '-'

/-- Domain class `[A-Za-z0-9.-]` of the e-mail pattern. -/
def isDomainChar (c : Char) : Bool :=
  c.isUpper || c.isLower || c.isDigit || c = '.' || c = '-'

/-- Top-level-domain class `[A-Z|a-z]` of the e-mail pattern (the `|` is a
literal member of the class). -/
def isTldChar (c : Char) : Bool := c.isUpper || c.isLower || c = '|'

/-- `[A-Z|a-z]{2,}\b` at `tldStart`: greedy run shortened until the word
boundary holds, length at least 2. -/
def emailTldCheck (text : List Char) (tldStart : Nat) : Option Nat :=
  let runLen := ((text.drop tldStart).takeWhile isTldChar).length
  ((List.range runLen).map (fun j => runLen - j)).findSome? (fun k =>
    if 2 ≤ k && boundaryAt text (tldStart + k) then some (tldStart + k) else none)

/-- `[A-Za-z0-9.-]+\.` then the TLD part, at `domStart`: the greedy domain
run is given back until a literal `.` follows a non-empty prefix. -/
def emailDomainCheck (text : List Char) (domStart : Nat) : Option Nat :=
  let run := (text.drop domStart).takeWhile isDomainChar
  ((List.range run.length).map (fun j => run.length - 1 - j)).findSome? (fun k =>
    if 1 ≤ k && run.getD k ' ' = '.' then emailTldCheck text (domStart + k + 1)
    else none)

/-- The e-mail pattern anchored at `pos`: boundary, non-empty local part,
literal `@` (not a local character, so the greedy run is exact), domain. -/
def emailMatchAt (text : List Char) (pos : Nat) : Option Nat :=
  if boundaryAt text pos then
    let lrun := ((text.drop pos).takeWhile isLocalChar).length
    if 1 ≤ lrun then
      match text.get? (pos + lrun) with
      | some '@' => emailDomainCheck text (pos + lrun + 1)
      | _ => none
    else none
  else none

/-- `^(<kw1>|<kw2>|...)\s+\d+[:.]\s*` with `re.IGNORECASE`, anchored at the
start of the text (the `^` anchor without MULTILINE restricts `finditer` to
position 0).  Keywords are supplied lowercased. -/
def headerKeywordMatch (text : List Char) (kws : List (List Char)) : Option Nat :=
  kws.findSome? (fun kw =>
    if (text.take kw.length).map Char.toLower = kw then
      let r1 := text.drop kw.length
      let s1 := (r1.takeWhile isPySpace).length
      if 1 ≤ s1 then
        let r2 := r1.drop s1
        let d := (r2.takeWhile Char.isDigit).length
        if 1 ≤ d then
          match r2.drop d with
          | c :: r3 =>
            if c = ':' || c = '.' then
              some (kw.length + s1 + d + 1 + (r3.takeWhile isPySpace).length)
            else none
          | [] => none
        else none
      else none
    else none)

/-- `EdgeCaseHandlers.detect_mathematical`: equations then formulas, both
recorded as `EQUATION`. -/
def detect_mathematical (text : List Char) : List TextStructure :=
  (finditerGo (equationMatchAt text) text.length text.length 0).map
    (fun p => ⟨StructureType.EQUATION, p.1, p.2, (text.take p.2).drop p.1⟩) ++
  (finditerGo (formulaMatchAt text) text.length text.length 0).map
    (fun p => ⟨StructureType.EQUATION, p.1, p.2, (text.take p.2).drop p.1⟩)

/-- `EdgeCaseHandlers.detect_urls_emails`. -/
def detect_urls_emails (text : List Char) : List TextStructure :=
  (finditerGo (urlMatchAt text) text.length text.length 0).map
    (fun p => ⟨StructureType.URL, p.1, p.2, (text.take p.2).drop p.1⟩) ++
  (finditerGo (emailMatchAt text) text.length text.length 0).map
    (fun p => ⟨StructureType.EMAIL, p.1, p.2, (text.take p.2).drop p.1⟩)

/-- `EdgeCaseHandlers.detect_structural_elements`: headers then
figure/table captions, both recorded as `HEADER`. -/
def detect_structural_elements (text : List Char) : List TextStructure :=
  (match headerKeywordMatch text ["chapter".toList, "section".toList, "part".toList] with
   | some e => [⟨StructureType.HEADER, 0, e, text.take e⟩]
   | none => []) ++
  (match headerKeywordMatch text
      ["figure".toList, "table".toList, "chart".toList, "graph".toList] with
   | some e => [⟨StructureType.HEADER, 0, e, text.take e⟩]
   | none => [])

/-- `EdgeCaseHandlers.detect_structures`: the five sub-detectors in source
order. -/
def detect_structures (text : List Char) : List TextStructure :=
  detect_lists text ++ detect_quotations text ++ detect_mathematical text ++
    detect_urls_emails text ++ detect_structural_elements text

/-! ## SentenceSegmenter: break-decision helpers -/

/-- `re.compile(r'[!?]{2,}').search(word)`: two adjacent terminal marks. -/
def multiplePunctSearch : List Char → Bool
  | a :: b :: rest =>
    ((a = '!' || a = '?') && (b = '!' || b = '?')) || multiplePunctSearch (b :: rest)
  | _ => false

/-- `re.compile(r'\d{1,2}:\d{2}').match(window)`: the greedy two-digit
alternative first, then the one-digit one. -/
def timePatternMatch (l : List Char) : Bool :=
  (match l with
   | a :: b :: c :: d :: e :: _ =>
     a.isDigit && b.isDigit && c = ':' && d.isDigit && e.isDigit
   | _ => false) ||
  (match l with
   | a :: b :: c :: d :: _ => a.isDigit && b = ':' && c.isDigit && d.isDigit
   | _ => false)

/-- `EdgeCaseHandlers.should_break_at_colon`.  Mirrors the source exactly:
the ratio and time checks return `False`, as does the final fall-through, so
only the list checks can produce `True`. -/
def should_break_at_colon (text : List Char) (colon_pos : Nat) : Bool :=
  let after_colon := pyStrip (text.drop (colon_pos + 1))
  let listCheck : Bool :=
    match after_colon with
    | c :: _ =>
      (c.isUpper || c.isDigit) &&
        ((after_colon.take 100).contains '\n' ||
          decide ((((pySplit after_colon).take 10).filter
            (fun w => match w with
                      | d :: _ => d.isUpper
                      | [] => false)).length > 3))
    | [] => false
  if listCheck then true
  else if (0 < colon_pos && colon_pos < text.length - 1)
          && (text.getD (colon_pos - 1) ' ').isDigit
          && (text.getD (colon_pos + 1) ' ').isDigit then false
  else if timePatternMatch ((text.drop (colon_pos - 2)).take 5) then false
  else false

/-- `code_snippet` pattern `(if|while|for|def|function|class)\s*\([^)]*\)\s*{?`
anchored at one position; the trailing `\s*` and optional brace always
match, so the pattern reduces to keyword, spaces, `(`, non-`)` run, `)`. -/
def codeSnippetAt (l : List Char) : Bool :=
  ["if", "while", "for", "def", "function", "class"].any (fun kw =>
    let kl := kw.toList
    if l.take kl.length = kl then
      match (l.drop kl.length).dropWhile isPySpace with
      | '(' :: r2 =>
        match r2.dropWhile (fun c => c ≠ ')') with
        | ')' :: _ => true
        | _ => false
      | _ => false
    else false)

/-- `EdgeCaseHandlers.is_within_code`: search the code-snippet pattern in a
50-character window around the position. -/
def is_within_code (text : List Char) (position : Nat) : Bool :=
  let context := (text.take (position + 50)).drop (position - 50)
  (List.range context.length).any (fun i => codeSnippetAt (context.drop i))

/-- `EdgeCaseHandlers.is_within_quotes`: odd number of straight quote
characters before the position. -/
def is_within_quotes (text : List Char) (position : Nat) : Bool :=
  ((text.take position).countP (fun c => c = '"' || c = '\'')) % 2 = 1

/-- `EdgeCaseHandlers.should_break_at_semicolon`. -/
def should_break_at_semicolon (text : List Char) (semicolon_pos : Nat) : Bool :=
  if is_within_code text semicolon_pos then false
  else if is_within_quotes text semicolon_pos then false
  else true

/-! ## SentenceSegmenter: `apply_enhanced_sentence_detection` -/

/-- Whether the structure type forces a list break. -/
def isListStructure : StructureType → Bool
  | .COLON_LIST | .NUMBERED_LIST | .BULLETED_LIST | .LETTERED_LIST => true
  | _ => false

/-- The `structure_map` dictionary: structures are written over
`range(start_pos, end_pos)` in list order, later entries overwriting
earlier ones, so the value at `pos` is the last covering structure. -/
def structureAt (structs : List TextStructure) (pos : Nat) : Option TextStructure :=
  (structs.filter (fun s => s.start_pos ≤ pos && pos < s.end_pos)).getLast?

/-- The per-word break decision of `apply_enhanced_sentence_detection`:
punctuation rules first, then the structure-boundary override.  Returns the
`break_reason` when a break occurs. -/
def shouldBreakInfo (text : List Char) (structs : List TextStructure)
    (w : Word) (next_word : Option String) : Option String :=
  let word_text := w.word
  let word_end_pos := w.char_end
  let punct : Option String :=
    if strEndsWithChar word_text '.' then
      if !is_abbreviation word_text next_word then some "period" else none
    else if strEndsWithChar word_text '!' || strEndsWithChar word_text '?' then
      if !multiplePunctSearch word_text.toList then some "exclamation/question"
      else none
    else if strEndsWithChar word_text ':' then
      if should_break_at_colon text (word_end_pos - 1) then some "colon_list"
      else none
    else if strEndsWithChar word_text ';' then
      if should_break_at_semicolon text (word_end_pos - 1) then some "semicolon"
      else none
    else none
  match structureAt structs word_end_pos with
  | some s =>
    if isListStructure s.type then some ("list_" ++ s.type.value) else punct
  | none => punct

/-- The word loop of `apply_enhanced_sentence_detection`, parameterised by
the break decision `brk`.  `total` is `len(words)`, `textLen` is
`len(text)`; `i` is the loop index, `current` the accumulated words of the
open sentence, `curStart` the sentence's starting character offset. -/
def segGo (brk : Word → Option String → Option String) (text : List Char)
    (total : Nat) (textLen : Nat) :
    List Word → Nat → List Word → Nat → Nat → List Sentence
  | [], _, current, curStart, sentIdx =>
    match current with
    | [] => []
    | c :: cs =>
      [{ text := String.mk (pyStrip (text.drop curStart))
         start_ms := c.start_ms
         end_ms := ((c :: cs).getLast (by simp)).end_ms
         sentence_index := sentIdx
         wordStartIndex := (total : Int) - (c :: cs).length
         wordEndIndex := (total : Int) - 1
         char_start := curStart
         char_end := textLen - 1
         break_reason := "end_of_text" }]
  | w :: rest, i, current, curStart, sentIdx =>
    match brk w (rest.head?.map Word.word) with
    | some reason =>
      { text := String.mk (pyStrip ((text.take (w.char_end + 1)).drop curStart))
        start_ms := ((current ++ [w]).headD w).start_ms
        end_ms := w.end_ms
        sentence_index := sentIdx
        wordStartIndex := (i : Int) - ((current ++ [w]).length : Int) + 1
        wordEndIndex := (i : Int)
        char_start := curStart
        char_end := w.char_end
        break_reason := reason } ::
          segGo brk text total textLen rest (i + 1) [] (w.char_end + 1) (sentIdx + 1)
    | none => segGo brk text total textLen rest (i + 1) (current ++ [w]) curStart sentIdx

/-- `EdgeCaseHandlers.apply_enhanced_sentence_detection`. -/
def apply_enhanced_sentence_detection (words : List Word) (text : List Char)
    (structs : List TextStructure) : List Sentence :=
  segGo (shouldBreakInfo text structs) text words.length text.length words 0 [] 0 0

/-! ## CoverageAssigner: `ensure_continuous_sentence_coverage`

The Python boundary loop at step `i` reads `sentences[i]['end_ms']` and
`sentences[i+1]['start_ms']`; the former is only ever written at step `i`
itself and the latter only at step `i`, so every midpoint is computed from
one original end and one original start, which the recursion below mirrors. -/

/-- The sentence-boundary extension loop: each adjacent pair meets at the
integer midpoint `(end + start) // 2`. -/
def normalizeSentencePairsGo (cur : Sentence) : List Sentence → List Sentence
  | [] => [cur]
  | s2 :: rest =>
    { cur with end_ms := (cur.end_ms + s2.start_ms) / 2 } ::
      normalizeSentencePairsGo
        { s2 with start_ms := (cur.end_ms + s2.start_ms) / 2 } rest

/-- Entry point of the boundary-extension loop. -/
def normalizeSentencePairs : List Sentence → List Sentence
  | [] => []
  | s :: rest => normalizeSentencePairsGo s rest

/-- The containment scan: first sentence whose `[start_ms, end_ms]` holds
the midpoint. -/
def findContainingAux (mid : Int) : List Sentence → Nat → Option Nat
  | [], _ => none
  | s :: rest, i =>
    if s.start_ms ≤ mid && mid ≤ s.end_ms then some i
    else findContainingAux mid rest (i + 1)

/-- The nearest-sentence scan: running minimum distance (strictly smaller
distances win, so the first minimum is kept); `none` plays `float('inf')`. -/
def nearestGo (mid : Int) : List Sentence → Nat → Option Nat → Nat → Nat
  | [], _, _, best => best
  | s :: rest, i, bestDist, best =>
    match bestDist with
    | none =>
      nearestGo mid rest (i + 1)
        (some (min (mid - s.start_ms).natAbs (mid - s.end_ms).natAbs)) i
    | some bd =>
      if min (mid - s.start_ms).natAbs (mid - s.end_ms).natAbs < bd then
        nearestGo mid rest (i + 1)
          (some (min (mid - s.start_ms).natAbs (mid - s.end_ms).natAbs)) i
      else nearestGo mid rest (i + 1) (some bd) best

/-- The word-assignment body of `ensure_continuous_sentence_coverage`:
midpoint containment, then the three fallback branches. -/
def assignSentenceIndex (ss : List Sentence) (w : Word) : Word :=
  match findContainingAux ((w.start_ms + w.end_ms) / 2) ss 0 with
  | some i => { w with sentence_index := (i : Int) }
  | none =>
    match ss.head?, ss.getLast? with
    | some s0, some sl =>
      if (w.start_ms + w.end_ms) / 2 < s0.start_ms then
        { w with sentence_index := 0 }
      else if sl.end_ms < (w.start_ms + w.end_ms) / 2 then
        { w with sentence_index := (ss.length : Int) - 1 }
      else
        { w with sentence_index :=
            (nearestGo ((w.start_ms + w.end_ms) / 2) ss 0 none 0 : Int) }
    | _, _ => w

/-- The final verification pass: any negative `sentence_index` is forced to
sentence 0. -/
def fixNegativeIndex (w : Word) : Word :=
  if w.sentence_index < 0 then { w with sentence_index := 0 } else w

/-- `ElevenLabsCompleteProcessor.ensure_continuous_sentence_coverage`. -/
def ensure_continuous_sentence_coverage (words : List Word)
    (sentences : List Sentence) : List Word × List Sentence :=
  if sentences.isEmpty || words.isEmpty then (words, sentences)
  else
    let ss := normalizeSentencePairs sentences
    ((words.map (assignSentenceIndex ss)).map fixNegativeIndex, ss)

/-- `ElevenLabsCompleteProcessor.detect_sentences` with the default
`use_enhanced_detection = True`. -/
def detect_sentences (words : List Word) (text : List Char) : List Sentence :=
  apply_enhanced_sentence_detection words text (detect_structures text)

/-- The timing part of `ElevenLabsCompleteProcessor.process`: gap
elimination, then sentence detection on the gap-free words, then coverage
normalization. -/
def processTiming (words : List Word) (text : List Char) :
    List Word × List Sentence :=
  ensure_continuous_sentence_coverage (eliminate_timing_gaps words)
    (detect_sentences (eliminate_timing_gaps words) text)

/-! ## Claim C10: the sentences partition the word indices -/

/-- The word-index ranges of a sentence list are contiguous starting at
`a`: each sentence starts where expected and the next starts one past the
previous sentence's end. -/
def contiguousFrom : Int → List Sentence → Prop
  | _, [] => True
  | a, s :: rest => s.wordStartIndex = a ∧ contiguousFrom (s.wordEndIndex + 1) rest

theorem segGo_partition (brk : Word → Option String → Option String)
    (text : List Char) (total textLen : Nat) :
    ∀ (rem : List Word) (i : Nat) (current : List Word) (curStart sentIdx : Nat),
      total = i + rem.length →
      contiguousFrom ((i : Int) - current.length)
          (segGo brk text total textLen rem i current curStart sentIdx)
      ∧ (segGo brk text total textLen rem i current curStart sentIdx = []
            ↔ (rem = [] ∧ current = []))
      ∧ (∀ s, (segGo brk text total textLen rem i current curStart sentIdx).getLast?
            = some s → s.wordEndIndex = (total : Int) - 1) := by
  intro rem
  induction rem with
  | nil =>
    intro i current curStart sentIdx htot
    simp only [List.length_nil, Nat.add_zero] at htot
    cases current with
    | nil =>
      refine ⟨trivial, by simp [segGo], ?_⟩
      intro s hs
      simp [segGo] at hs
    | cons c cs =>
      subst htot
      refine ⟨?_, by simp [segGo], ?_⟩
      · show contiguousFrom _ [_]
        refine ⟨?_, trivial⟩
        simp [List.length_cons]
      · intro s hs
        simp only [segGo, List.getLast?_singleton, Option.some.injEq] at hs
        rw [← hs]
  | cons w rest ih =>
    intro i current curStart sentIdx htot
    simp only [List.length_cons] at htot
    have htot2 : total = (i + 1) + rest.length := by omega
    cases hbrk : brk w (rest.head?.map Word.word) with
    | none =>
      have hip := ih (i + 1) (current ++ [w]) curStart sentIdx htot2
      have hcast : ((i + 1 : Nat) : Int) - ((current ++ [w]).length : Int)
          = (i : Int) - current.length := by
        simp only [List.length_append, List.length_cons, List.length_nil]
        push_cast
        omega
      refine ⟨?_, ?_, ?_⟩
      · show contiguousFrom _ (segGo brk text total textLen (w :: rest) i current curStart sentIdx)
        simp only [segGo, hbrk]
        rw [← hcast]
        exact hip.1
      · simp only [segGo, hbrk]
        rw [hip.2.1]
        simp
      · intro s hs
        simp only [segGo, hbrk] at hs
        exact hip.2.2 s hs
    | some reason =>
      have hip := ih (i + 1) [] (w.char_end + 1) (sentIdx + 1) htot2
      refine ⟨?_, ?_, ?_⟩
      · show contiguousFrom _ (segGo brk text total textLen (w :: rest) i current curStart sentIdx)
        simp only [segGo, hbrk]
        refine ⟨?_, ?_⟩
        · simp only [List.length_append, List.length_cons, List.length_nil]
          push_cast
          omega
        · have h2 := hip.1
          simp only [List.length_nil, Nat.cast_zero, Int.sub_zero] at h2
          have hcc : ((i + 1 : Nat) : Int) = (i : Int) + 1 := by push_cast; ring
          rw [hcc] at h2
          exact h2
      · simp only [segGo, hbrk]
        simp
      · intro s hs
        simp only [segGo, hbrk] at hs
        cases hrec : segGo brk text total textLen rest (i + 1) [] (w.char_end + 1) (sentIdx + 1) with
        | nil =>
          rw [hrec] at hs
          simp only [List.getLast?_singleton, Option.some.injEq] at hs
          have hrest : rest = [] := ((hip.2.1).mp hrec).1
          subst hrest
          simp only [List.length_nil, Nat.add_zero] at htot2
          rw [← hs]
          simp only []
          omega
        | cons y ys =>
          rw [hrec] at hs
          rw [List.getLast?_cons_cons] at hs
          have := hip.2.2 s
          rw [hrec] at this
          exact this hs

theorem contiguousFrom_head (a : Int) (s : Sentence) (l : List Sentence)
    (h : contiguousFrom a (s :: l)) : s.wordStartIndex = a := h.1

theorem contiguousFrom_adjacent (a : Int) :
    ∀ (l : List Sentence), contiguousFrom a l →
      ∀ i, i + 1 < l.length →
        (l.getD (i + 1) sdef).wordStartIndex = (l.getD i sdef).wordEndIndex + 1 := by
  intro l
  induction l generalizing a with
  | nil => intro _ i hi; simp at hi
  | cons s rest ih =>
    intro h i hi
    cases rest with
    | nil => simp at hi
    | cons t r2 =>
      cases i with
      | zero => exact (h.2).1
      | succ j =>
        simp only [List.length_cons] at hi
        have := ih (s.wordEndIndex + 1) h.2 j (by simp only [List.length_cons]; omega)
        simpa using this

/-- Claim C10: for every non-empty word list, the sentences produced by
`apply_enhanced_sentence_detection` partition the word indices
contiguously: the list is non-empty, the first sentence's `wordStartIndex`
is 0, the last sentence's `wordEndIndex` is `len(words) - 1`, and each
subsequent sentence starts right after its predecessor ends. -/
theorem c10_sentence_partition (words : List Word) (text : List Char)
    (structs : List TextStructure) (hw : words ≠ []) :
    apply_enhanced_sentence_detection words text structs ≠ []
    ∧ (∀ s, (apply_enhanced_sentence_detection words text structs).head? = some s →
        s.wordStartIndex = 0)
    ∧ (∀ s, (apply_enhanced_sentence_detection words text structs).getLast? = some s →
        s.wordEndIndex = (words.length : Int) - 1)
    ∧ (∀ i, i + 1 < (apply_enhanced_sentence_detection words text structs).length →
        ((apply_enhanced_sentence_detection words text structs).getD (i + 1) sdef).wordStartIndex
          = ((apply_enhanced_sentence_detection words text structs).getD i sdef).wordEndIndex + 1) := by
  have hp := segGo_partition (shouldBreakInfo text structs) text words.length
    text.length words 0 [] 0 0 (by simp)
  have hzero : ((0 : Nat) : Int) - (([] : List Word).length : Int) = 0 := by simp
  rw [hzero] at hp
  have hea : apply_enhanced_sentence_detection words text structs
      = segGo (shouldBreakInfo text structs) text words.length text.length
          words 0 [] 0 0 := rfl
  rw [← hea] at hp
  refine ⟨?_, ?_, ?_, ?_⟩
  · intro hempty
    have := (hp.2.1).mp hempty
    exact hw this.1
  · intro s hs
    cases hl : apply_enhanced_sentence_detection words text structs with
    | nil => rw [hl] at hs; simp at hs
    | cons a l2 =>
      have hc := hp.1
      rw [hl] at hc hs
      simp only [List.head?_cons, Option.some.injEq] at hs
      subst hs
      exact contiguousFrom_head 0 _ l2 hc
  · intro s hs
    exact hp.2.2 s hs
  · intro i hi
    exact contiguousFrom_adjacent 0 _ hp.1 i hi

/-- Witness for C10 at a concrete one-word input (no structures): the
segmenter emits at least one sentence. -/
theorem c10_witness :
    apply_enhanced_sentence_detection [⟨"Hi", 0, 10, 0, 2, 0⟩] [] [] ≠ [] :=
  (c10_sentence_partition [⟨"Hi", 0, 10, 0, 2, 0⟩] [] [] (by decide)).1

/-! ## Claim C2: list forcing on `"Examples include:\nTelematics\nWearables"` -/

/-- Python `str.startswith` on whole strings. -/
def strStartsWith (s pre : String) : Bool :=
  s.toList.take pre.toList.length = pre.toList

/-- Python `str.endswith` on whole strings. -/
def strEndsWithStr (s suf : String) : Bool :=
  s.toList.drop (s.toList.length - suf.toList.length) = suf.toList

/-- The claim's input text. -/
def c2text : List Char := "Examples include:\nTelematics\nWearables".toList

/-- The claim's words ("timed arbitrarily": one concrete timing), with the
character offsets `extract_words_with_timing` would assign. -/
def c2words : List Word :=
  [⟨"Examples", 0, 100, 0, 8, 0⟩,
   ⟨"include:", 100, 200, 9, 17, 0⟩,
   ⟨"Telematics", 200, 300, 18, 28, 0⟩,
   ⟨"Wearables", 300, 400, 29, 38, 0⟩]

set_option maxRecDepth 40000 in
/-- Counterexample to claim C2: the segmenter does yield two sentences, but
the first one ends at "include:" (not at "Telematics") and the second one is
tagged `end_of_text` (neither `list_*` nor `colon_list`). -/
theorem c2_counterexample :
    ¬ ((detect_sentences c2words c2text).length = 2
       ∧ (∀ s ∈ detect_sentences c2words c2text,
            strStartsWith s.break_reason "list_" = true
              ∨ s.break_reason = "colon_list")
       ∧ (∀ s ∈ (detect_sentences c2words c2text).head?,
            strEndsWithStr s.text "Telematics" = true)
       ∧ (∀ s ∈ (detect_sentences c2words c2text).getLast?,
            strEndsWithStr s.text "Wearables" = true)) := by
  decide

set_option maxRecDepth 40000 in
/-- Claim C2 as amended: on this input the segmenter yields the sentence
"Examples include:" tagged `colon_list` (the colon heuristic fires at the
colon) followed by "Telematics\nWearables" tagged `end_of_text`; no `list_*`
break is forced, because the only detected list structure covers
"Telematics" with an exclusive end offset that never equals a word's
`char_end`, and "Wearables" is not detected as a list item at all. -/
theorem c2_actual_segmentation :
    (detect_sentences c2words c2text).map Sentence.text
        = ["Examples include:", "Telematics\nWearables"]
    ∧ (detect_sentences c2words c2text).map Sentence.break_reason
        = ["colon_list", "end_of_text"]
    ∧ detect_structures c2text
        = [⟨StructureType.COLON_LIST, 18, 28, "Telematics".toList⟩] := by
  decide

/-! ## Claim C7: word-to-sentence assignment -/

theorem apply_enhanced_ne_nil (words : List Word) (text : List Char)
    (structs : List TextStructure) (hw : words ≠ []) :
    apply_enhanced_sentence_detection words text structs ≠ [] := by
  intro hempty
  have hp := segGo_partition (shouldBreakInfo text structs) text words.length
    text.length words 0 [] 0 0 (by simp)
  exact hw ((hp.2.1.mp hempty).1)

theorem normalizeSentencePairsGo_ne_nil (cur : Sentence) (l : List Sentence) :
    normalizeSentencePairsGo cur l ≠ [] := by
  cases l <;> simp [normalizeSentencePairsGo]

theorem findContainingAux_lt (mid : Int) :
    ∀ (l : List Sentence) (i j : Nat), findContainingAux mid l i = some j →
      j < i + l.length := by
  intro l
  induction l with
  | nil => intro i j h; simp [findContainingAux] at h
  | cons s rest ih =>
    intro i j h
    unfold findContainingAux at h
    split at h
    · simp only [Option.some.injEq] at h
      simp only [List.length_cons]
      omega
    · have := ih (i + 1) j h
      simp only [List.length_cons]
      omega

theorem nearestGo_bound (mid : Int) :
    ∀ (l : List Sentence) (i : Nat) (d : Option Nat) (best : Nat),
      nearestGo mid l i d best = best
        ∨ (i ≤ nearestGo mid l i d best ∧ nearestGo mid l i d best < i + l.length) := by
  intro l
  induction l with
  | nil => intro i d best; left; rfl
  | cons s rest ih =>
    intro i d best
    cases d with
    | none =>
      right
      rw [show nearestGo mid (s :: rest) i none best
          = nearestGo mid rest (i + 1)
              (some (min (mid - s.start_ms).natAbs (mid - s.end_ms).natAbs)) i from rfl]
      simp only [List.length_cons]
      rcases ih (i + 1) (some (min (mid - s.start_ms).natAbs (mid - s.end_ms).natAbs)) i
        with h | h
      · rw [h]; omega
      · omega
    | some bd =>
      rw [show nearestGo mid (s :: rest) i (some bd) best
          = if min (mid - s.start_ms).natAbs (mid - s.end_ms).natAbs < bd then
              nearestGo mid rest (i + 1)
                (some (min (mid - s.start_ms).natAbs (mid - s.end_ms).natAbs)) i
            else nearestGo mid rest (i + 1) (some bd) best from rfl]
      split_ifs with hd
      · right
        simp only [List.length_cons]
        rcases ih (i + 1) (some (min (mid - s.start_ms).natAbs (mid - s.end_ms).natAbs)) i
          with h | h
        · rw [h]; omega
        · omega
      · rcases ih (i + 1) (some bd) best with h | h
        · left; exact h
        · right; simp only [List.length_cons]; omega

theorem nearestGo_lt (mid : Int) (s : Sentence) (rest : List Sentence) :
    nearestGo mid (s :: rest) 0 none 0 < (s :: rest).length := by
  rw [show nearestGo mid (s :: rest) 0 none 0
      = nearestGo mid rest 1
          (some (min (mid - s.start_ms).natAbs (mid - s.end_ms).natAbs)) 0 from rfl]
  rcases nearestGo_bound mid rest 1
      (some (min (mid - s.start_ms).natAbs (mid - s.end_ms).natAbs)) 0 with h | h
  · rw [h]; simp
  · simp only [List.length_cons]; omega

theorem assignSentenceIndex_bounds (ss : List Sentence) (hss : ss ≠ []) (w : Word) :
    0 ≤ (assignSentenceIndex ss w).sentence_index
    ∧ (assignSentenceIndex ss w).sentence_index < (ss.length : Int) := by
  have hlen : 0 < ss.length := List.length_pos.mpr hss
  cases hf : findContainingAux ((w.start_ms + w.end_ms) / 2) ss 0 with
  | some i =>
    have hi : i < ss.length := by
      have := findContainingAux_lt ((w.start_ms + w.end_ms) / 2) ss 0 i hf
      omega
    simp only [assignSentenceIndex, hf]
    constructor
    · exact Int.ofNat_nonneg i
    · exact_mod_cast hi
  | none =>
    cases ss with
    | nil => exact absurd rfl hss
    | cons s0 rest =>
      obtain ⟨sl, hsl⟩ : ∃ sl, (s0 :: rest).getLast? = some sl := by
        cases hE : (s0 :: rest).getLast? with
        | none => simp at hE
        | some sl => exact ⟨sl, rfl⟩
      simp only [assignSentenceIndex, hf, List.head?_cons, hsl]
      simp only [List.length_cons] at hlen ⊢
      split_ifs with h1 h2
      · constructor
        · show (0 : Int) ≤ 0
          omega
        · show (0 : Int) < ((rest.length + 1 : Nat) : Int)
          push_cast
          omega
      · constructor
        · show (0 : Int) ≤ ((rest.length + 1 : Nat) : Int) - 1
          push_cast
          omega
        · show ((rest.length + 1 : Nat) : Int) - 1 < ((rest.length + 1 : Nat) : Int)
          omega
      · have hn := nearestGo_lt ((w.start_ms + w.end_ms) / 2) s0 rest
        simp only [List.length_cons] at hn
        constructor
        · exact Int.ofNat_nonneg _
        · show ((nearestGo ((w.start_ms + w.end_ms) / 2) (s0 :: rest) 0 none 0 : Nat) : Int)
              < ((rest.length + 1 : Nat) : Int)
          exact_mod_cast hn

theorem fixNegativeIndex_of_bounds (w : Word) (n : Int)
    (h1 : 0 ≤ w.sentence_index) (h2 : w.sentence_index < n) :
    0 ≤ (fixNegativeIndex w).sentence_index
    ∧ (fixNegativeIndex w).sentence_index < n := by
  unfold fixNegativeIndex
  split_ifs with h
  · exact absurd h (by omega)
  · exact ⟨h1, h2⟩

/-- Claim C7 as amended: on the final output, every word's `sentence_index`
is a valid index into the sentence sequence (the span-containment half of
the original claim fails, see the counterexample below). -/
theorem c7_sentence_index_valid (ws : List Word) (text : List Char) (hw : ws ≠ []) :
    ∀ w ∈ (processTiming ws text).1,
      0 ≤ w.sentence_index
        ∧ w.sentence_index < ((processTiming ws text).2.length : Int) := by
  have hws1 : eliminate_timing_gaps ws ≠ [] := by
    intro hh
    apply hw
    have hl := eliminate_timing_gaps_length ws
    rw [hh] at hl
    exact List.length_eq_zero.mp hl.symm
  have hss : detect_sentences (eliminate_timing_gaps ws) text ≠ [] :=
    apply_enhanced_ne_nil _ _ _ hws1
  have hsse : (detect_sentences (eliminate_timing_gaps ws) text).isEmpty = false := by
    cases hE : detect_sentences (eliminate_timing_gaps ws) text with
    | nil => exact absurd hE hss
    | cons a l => rfl
  have hwse : (eliminate_timing_gaps ws).isEmpty = false := by
    cases hE : eliminate_timing_gaps ws with
    | nil => exact absurd hE hws1
    | cons a l => rfl
  have hpt : processTiming ws text
      = (((eliminate_timing_gaps ws).map (assignSentenceIndex
            (normalizeSentencePairs (detect_sentences (eliminate_timing_gaps ws) text)))).map
            fixNegativeIndex,
         normalizeSentencePairs (detect_sentences (eliminate_timing_gaps ws) text)) := by
    unfold processTiming ensure_continuous_sentence_coverage
    rw [hsse, hwse]
    simp
  rw [hpt]
  intro w hwmem
  simp only [List.mem_map] at hwmem
  obtain ⟨a, ⟨b, hb, rfl⟩, rfl⟩ := hwmem
  have hnn : normalizeSentencePairs
      (detect_sentences (eliminate_timing_gaps ws) text) ≠ [] := by
    cases hE : detect_sentences (eliminate_timing_gaps ws) text with
    | nil => exact absurd hE hss
    | cons s rest =>
      show normalizeSentencePairsGo s rest ≠ []
      exact normalizeSentencePairsGo_ne_nil s rest
  have hb2 := assignSentenceIndex_bounds _ hnn b
  exact fixNegativeIndex_of_bounds _ _ hb2.1 hb2.2

/-- Concrete input refuting the span-containment half of C7: the second
word spans 500 to 501 ms, its midpoint 500 lands exactly on the normalized
boundary, so it is assigned to sentence 0 whose span ends at 500. -/
def c7words : List Word := [⟨"Hi.", 0, 300, 0, 3, 0⟩, ⟨"Yo", 500, 501, 4, 6, 0⟩]

/-- The reconstructed text matching `c7words`. -/
def c7text : List Char := "Hi. Yo".toList

/-- Whether a word's time span lies within the span of the sentence it was
assigned to. -/
def wordSpanCovered (ss : List Sentence) (w : Word) : Bool :=
  match ss.get? w.sentence_index.toNat with
  | some s => s.start_ms ≤ w.start_ms && w.end_ms ≤ s.end_ms
  | none => false

set_option maxRecDepth 40000 in
/-- Counterexample to claim C7 as stated: on `c7words` the final output
assigns both words to sentence 0, but the second word's span `[500, 501]`
is not contained in sentence 0's span `[0, 500]`. -/
theorem c7_counterexample :
    (processTiming c7words c7text).1.map Word.sentence_index = [0, 0]
    ∧ (processTiming c7words c7text).2.map Sentence.end_ms = [500, 501]
    ∧ ¬ (∀ w ∈ (processTiming c7words c7text).1,
          wordSpanCovered (processTiming c7words c7text).2 w = true) := by
  decide

set_option maxRecDepth 40000 in
/-- Witness for the amended C7 at `c7words`: the second output word's
sentence index is valid. -/
theorem c7_witness :
    0 ≤ ((processTiming c7words c7text).1.getD 1 wdef).sentence_index
    ∧ ((processTiming c7words c7text).1.getD 1 wdef).sentence_index
        < ((processTiming c7words c7text).2.length : Int) :=
  c7_sentence_index_valid c7words c7text (by decide) _ (by decide)

/-! ## Claim C1: coverage after the full pipeline -/

theorem assignSentenceIndex_start (ss : List Sentence) (w : Word) :
    (assignSentenceIndex ss w).start_ms = w.start_ms := by
  unfold assignSentenceIndex
  split
  · rfl
  · split
    · split_ifs <;> rfl
    · rfl

theorem assignSentenceIndex_end (ss : List Sentence) (w : Word) :
    (assignSentenceIndex ss w).end_ms = w.end_ms := by
  unfold assignSentenceIndex
  split
  · rfl
  · split
    · split_ifs <;> rfl
    · rfl

theorem fixNegativeIndex_start (w : Word) :
    (fixNegativeIndex w).start_ms = w.start_ms := by
  unfold fixNegativeIndex
  split_ifs <;> rfl

theorem fixNegativeIndex_end (w : Word) :
    (fixNegativeIndex w).end_ms = w.end_ms := by
  unfold fixNegativeIndex
  split_ifs <;> rfl

theorem getD_map_of_lt {α β : Type} (f : α → β) :
    ∀ (l : List α) (i : Nat), i < l.length → ∀ (d : α) (d2 : β),
      (l.map f).getD i d2 = f (l.getD i d)
  | [], i, h => by simp at h
  | a :: rest, 0, _ => by intro d d2; rfl
  | a :: rest, i + 1, h => by
    intro d d2
    have := getD_map_of_lt f rest i (by simp only [List.length_cons] at h; omega) d d2
    simpa using this

theorem eliminate_timing_gaps_getD_start (ws : List Word) (i : Nat) :
    ((eliminate_timing_gaps ws).getD i wdef).start_ms = (ws.getD i wdef).start_ms := by
  by_cases hc : i + 1 < ws.length
  · rw [eliminate_timing_gaps_getD_of_lt ws i hc, adjustWordEnd_start]
  · rw [eliminate_timing_gaps_getD_last ws i hc]

theorem normalizeSentencePairsGo_headD_start (cur : Sentence) (l : List Sentence) :
    ((normalizeSentencePairsGo cur l).headD sdef).start_ms = cur.start_ms := by
  cases l <;> rfl

theorem normalizeSentencePairsGo_chain :
    ∀ (l : List Sentence) (cur : Sentence),
      adjacentSat (fun a b => a.end_ms = b.start_ms) (normalizeSentencePairsGo cur l)
  | [], _ => trivial
  | s2 :: rest, cur => by
    have ih := normalizeSentencePairsGo_chain rest
      { s2 with start_ms := (cur.end_ms + s2.start_ms) / 2 }
    have hh := normalizeSentencePairsGo_headD_start
      { s2 with start_ms := (cur.end_ms + s2.start_ms) / 2 } rest
    show adjacentSat _ ({ cur with end_ms := (cur.end_ms + s2.start_ms) / 2 } ::
      normalizeSentencePairsGo
        { s2 with start_ms := (cur.end_ms + s2.start_ms) / 2 } rest)
    cases hE : normalizeSentencePairsGo
        { s2 with start_ms := (cur.end_ms + s2.start_ms) / 2 } rest with
    | nil => trivial
    | cons y ys =>
      rw [hE] at ih hh
      refine ⟨?_, ih⟩
      show ({ cur with end_ms := (cur.end_ms + s2.start_ms) / 2 }).end_ms = y.start_ms
      simp only [List.headD_cons] at hh
      rw [hh]

theorem normalizeSentencePairs_chain (l : List Sentence) :
    adjacentSat (fun a b => a.end_ms = b.start_ms) (normalizeSentencePairs l) := by
  cases l with
  | nil => trivial
  | cons s rest => exact normalizeSentencePairsGo_chain rest s

theorem processTiming_eq (ws : List Word) (text : List Char) (hw : ws ≠ []) :
    processTiming ws text
      = (((eliminate_timing_gaps ws).map (assignSentenceIndex
            (normalizeSentencePairs (detect_sentences (eliminate_timing_gaps ws) text)))).map
            fixNegativeIndex,
         normalizeSentencePairs (detect_sentences (eliminate_timing_gaps ws) text)) := by
  have hws1 : eliminate_timing_gaps ws ≠ [] := by
    intro hh
    apply hw
    have hl := eliminate_timing_gaps_length ws
    rw [hh] at hl
    exact List.length_eq_zero.mp hl.symm
  have hss : detect_sentences (eliminate_timing_gaps ws) text ≠ [] :=
    apply_enhanced_ne_nil _ _ _ hws1
  have hsse : (detect_sentences (eliminate_timing_gaps ws) text).isEmpty = false := by
    cases hE : detect_sentences (eliminate_timing_gaps ws) text with
    | nil => exact absurd hE hss
    | cons a l => rfl
  have hwse : (eliminate_timing_gaps ws).isEmpty = false := by
    cases hE : eliminate_timing_gaps ws with
    | nil => exact absurd hE hws1
    | cons a l => rfl
  unfold processTiming ensure_continuous_sentence_coverage
  rw [hsse, hwse]
  simp

/-- Claim C1 as amended: after the full pipeline, adjacent sentence pairs
meet exactly (`end_ms = next.start_ms`); adjacent word pairs never overlap
(`end_ms ≤ next.start_ms`), with equality whenever the input gap was below
the 500 ms threshold — gaps of 500 ms or more leave a residual uncovered
interval between words, refuting the unconditional word-coverage claim. -/
theorem c1_pipeline_coverage (ws : List Word) (text : List Char) (hw : ws ≠ []) :
    (∀ i, i + 1 < (processTiming ws text).1.length →
        ((processTiming ws text).1.getD i wdef).end_ms
          ≤ ((processTiming ws text).1.getD (i + 1) wdef).start_ms)
    ∧ (∀ i, i + 1 < ws.length →
        (ws.getD (i + 1) wdef).start_ms - (ws.getD i wdef).end_ms < 500 →
        ((processTiming ws text).1.getD i wdef).end_ms
          = ((processTiming ws text).1.getD (i + 1) wdef).start_ms)
    ∧ (∀ i, i + 1 < (processTiming ws text).2.length →
        ((processTiming ws text).2.getD i sdef).end_ms
          = ((processTiming ws text).2.getD (i + 1) sdef).start_ms) := by
  have hpt := processTiming_eq ws text hw
  have hsat : adjacentSat (fun (a b : Word) => a.end_ms ≤ b.start_ms)
      (((eliminate_timing_gaps ws).map (assignSentenceIndex
          (normalizeSentencePairs (detect_sentences (eliminate_timing_gaps ws) text)))).map
          fixNegativeIndex) := by
    apply adjacentSat_map (fun (a b : Word) => a.end_ms ≤ b.start_ms)
    · intro a b hp
      rw [fixNegativeIndex_end, fixNegativeIndex_start]
      exact hp
    · apply adjacentSat_map (fun (a b : Word) => a.end_ms ≤ b.start_ms)
      · intro a b hp
        rw [assignSentenceIndex_end, assignSentenceIndex_start]
        exact hp
      · exact eliminate_timing_gaps_no_overlap ws
  refine ⟨?_, ?_, ?_⟩
  · intro i hi
    rw [hpt] at hi ⊢
    exact adjacentSat_getD _ wdef _ hsat i hi
  · intro i hi hgap
    rw [hpt]
    have hlen : i + 1 < (eliminate_timing_gaps ws).length := by
      rw [eliminate_timing_gaps_length]
      exact hi
    have hml : i < ((eliminate_timing_gaps ws).map (assignSentenceIndex
        (normalizeSentencePairs (detect_sentences (eliminate_timing_gaps ws) text)))).length := by
      simp only [List.length_map]
      omega
    have hml2 : i + 1 < ((eliminate_timing_gaps ws).map (assignSentenceIndex
        (normalizeSentencePairs (detect_sentences (eliminate_timing_gaps ws) text)))).length := by
      simp only [List.length_map]
      omega
    rw [getD_map_of_lt fixNegativeIndex _ i hml wdef wdef,
        getD_map_of_lt fixNegativeIndex _ (i + 1) hml2 wdef wdef,
        getD_map_of_lt (assignSentenceIndex _) _ i (by omega) wdef wdef,
        getD_map_of_lt (assignSentenceIndex _) _ (i + 1) (by omega) wdef wdef,
        fixNegativeIndex_end, fixNegativeIndex_start,
        assignSentenceIndex_end, assignSentenceIndex_start,
        eliminate_timing_gaps_getD_of_lt ws i hi,
        eliminate_timing_gaps_getD_start ws (i + 1)]
    exact adjustWordEnd_of_small_gap _ _ hgap
  · intro i hi
    rw [hpt] at hi ⊢
    exact adjacentSat_getD _ sdef _
      (normalizeSentencePairs_chain (detect_sentences (eliminate_timing_gaps ws) text)) i hi

/-- Concrete input refuting C1 as stated: two words separated by a 1000 ms
gap. -/
def c1words : List Word := [⟨"Hi.", 0, 100, 0, 3, 0⟩, ⟨"Yo", 1100, 1200, 4, 6, 0⟩]

/-- The reconstructed text matching `c1words`. -/
def c1text : List Char := "Hi. Yo".toList

set_option maxRecDepth 40000 in
/-- Counterexample to claim C1: on a 1000 ms inter-word gap the pipeline's
final words are `[0, 600]` and `[1100, 1200]` — the first word's `end_ms`
does not equal the second word's `start_ms`, so the word timeline is not
fully covered. -/
theorem c1_counterexample :
    (processTiming c1words c1text).1.map (fun w => (w.start_ms, w.end_ms))
        = [(0, 600), (1100, 1200)]
    ∧ ((processTiming c1words c1text).1.getD 0 wdef).end_ms
        ≠ ((processTiming c1words c1text).1.getD 1 wdef).start_ms := by
  decide

set_option maxRecDepth 40000 in
/-- Witness for the amended C1 at `c7words` (a 200 ms gap, below the
threshold): words meet exactly and sentences meet exactly. -/
theorem c1_witness :
    ((processTiming c7words c7text).1.getD 0 wdef).end_ms
        = ((processTiming c7words c7text).1.getD 1 wdef).start_ms
    ∧ ((processTiming c7words c7text).2.getD 0 sdef).end_ms
        = ((processTiming c7words c7text).2.getD 1 sdef).start_ms :=
  ⟨(c1_pipeline_coverage c7words c7text (by decide)).2.1 0 (by decide) (by decide),
   (c1_pipeline_coverage c7words c7text (by decide)).2.2 0 (by decide)⟩

/-! ## CharacterAligner: `extract_words_with_timing`

Character times arrive in seconds (exact rational values); `int(t * 1000)`
truncates toward zero.  Python list indexing that can raise `IndexError` is
embedded as `Option`: `none` is the uncaught exception. -/

/-- `int(q * 1000)` for an exact rational `q`: truncation toward zero of
`q.num * 1000 / q.den`. -/
def msOf (q : ℚ) : Int := Int.tdiv (q.num * 1000) (q.den : Int)

/-- The character loop of `extract_words_with_timing`: `i` is the loop
index (equal to the running `char_position`), `current` the buffered word,
`wst` the buffered word's start time, `wsc` its starting character offset.
`starts.get? i` / `ends.get? j` model `start_times[i]` / `end_times[j]`. -/
def extractGo (starts ends : List ℚ) :
    List Char → Nat → List Char → Option ℚ → Nat → Option (List Word)
  | [], i, current, wst, wsc =>
    if current.isEmpty then some []
    else
      match ends.getLast? with
      | none => none
      | some et =>
        some [{ word := String.mk current
                start_ms := (wst.map msOf).getD 0
                end_ms := msOf et
                char_start := wsc
                char_end := i
                sentence_index := 0 }]
  | c :: rest, i, current, wst, wsc =>
    if !isPySpace c then
      match wst with
      | none =>
        match starts.get? i with
        | none => none
        | some st => extractGo starts ends rest (i + 1) (current ++ [c]) (some st) i
      | some _ => extractGo starts ends rest (i + 1) (current ++ [c]) wst wsc
    else
      if current.isEmpty then extractGo starts ends rest (i + 1) current none wsc
      else
        match (if 0 < i then ends.get? (i - 1) else ends.get? i) with
        | none => none
        | some et =>
          (extractGo starts ends rest (i + 1) [] none wsc).map
            (fun tail =>
              { word := String.mk current
                start_ms := (wst.map msOf).getD 0
                end_ms := msOf et
                char_start := wsc
                char_end := i
                sentence_index := 0 } :: tail)

/-- `ElevenLabsCompleteProcessor.extract_words_with_timing`. -/
def extract_words_with_timing (chars : List Char) (starts ends : List ℚ) :
    Option (List Word) :=
  extractGo starts ends chars 0 [] none 0

/-- Counterexample to claim C4: the character array has two entries but the
end-time array only one — a mismatch the claim says must fail with a
validation error before any stage runs — yet extraction completes and emits
a word (no length validation exists anywhere in the processor). -/
theorem c4_counterexample :
    (['a', 'b'] : List Char).length ≠ ([⟨1, 2, by decide, by decide⟩] : List ℚ).length
    ∧ extract_words_with_timing ['a', 'b'] [0, ⟨1, 10, by decide, by decide⟩]
        [⟨1, 2, by decide, by decide⟩]
      = some [⟨"ab", 0, 500, 0, 2, 0⟩] := by
  constructor
  · decide
  · decide

theorem extractGo_isSome (starts ends : List ℚ) (h3 : ends ≠ []) :
    ∀ (rem : List Char) (i : Nat) (current : List Char) (wst : Option ℚ) (wsc : Nat),
      i + rem.length ≤ starts.length → i + rem.length ≤ ends.length →
      (extractGo starts ends rem i current wst wsc).isSome = true := by
  intro rem
  induction rem with
  | nil =>
    intro i current wst wsc hs he
    show (extractGo starts ends [] i current wst wsc).isSome = true
    unfold extractGo
    split_ifs with hc
    · rfl
    · cases hE : ends.getLast? with
      | none =>
        exfalso
        apply h3
        cases ends with
        | nil => rfl
        | cons a l => simp at hE
      | some et => rfl
  | cons c rest ih =>
    intro i current wst wsc hs he
    simp only [List.length_cons] at hs he
    show (extractGo starts ends (c :: rest) i current wst wsc).isSome = true
    unfold extractGo
    split_ifs with hws hc hi
    · cases wst with
      | none =>
        cases hS : starts.get? i with
        | none =>
          exfalso
          have := List.get?_eq_none.mp hS
          omega
        | some st => exact ih (i + 1) (current ++ [c]) (some st) i (by omega) (by omega)
      | some q => exact ih (i + 1) (current ++ [c]) (some q) wsc (by omega) (by omega)
    · exact ih (i + 1) current none wsc (by omega) (by omega)
    · cases hEnd : ends.get? (i - 1) with
      | none =>
        exfalso
        have := List.get?_eq_none.mp hEnd
        omega
      | some et =>
        have hrec := ih (i + 1) [] none wsc (by omega) (by omega)
        cases hrecE : extractGo starts ends rest (i + 1) [] none wsc with
        | none => rw [hrecE] at hrec; simp at hrec
        | some tail => rfl
    · cases hEnd : ends.get? i with
      | none =>
        exfalso
        have := List.get?_eq_none.mp hEnd
        omega
      | some et =>
        have hrec := ih (i + 1) [] none wsc (by omega) (by omega)
        cases hrecE : extractGo starts ends rest (i + 1) [] none wsc with
        | none => rw [hrecE] at hrec; simp at hrec
        | some tail => rfl

/-- Claim C4 as amended: no validation runs up front; extraction consults
time entries lazily, so any input whose accessed entries exist — including
length-mismatched ones — completes successfully, and a missing accessed
entry surfaces as an index error during extraction, not as a prior
validation error. -/
theorem c4_no_upfront_validation (chars : List Char) (starts ends : List ℚ)
    (h1 : chars.length ≤ starts.length) (h2 : chars.length ≤ ends.length)
    (h3 : ends ≠ []) :
    (extract_words_with_timing chars starts ends).isSome = true :=
  extractGo_isSome starts ends h3 chars 0 [] none 0 (by omega) (by omega)

/-- Witness for the amended C4: arrays longer than the character array (a
length mismatch) still extract successfully. -/
theorem c4_witness :
    (extract_words_with_timing ['a'] [0, 5] [⟨1, 2, by decide, by decide⟩, 7]).isSome
      = true :=
  c4_no_upfront_validation ['a'] [0, 5] [⟨1, 2, by decide, by decide⟩, 7]
    (by decide) (by decide) (by decide)
